import Mathlib

set_option maxHeartbeats 1000000

/-!
Shallow embedding of the obsidian-url-dropper plugin's URL-to-note pipeline
(src/src/main.tsx, the single-URL variant, and src/unnamed/part_000, the
multi-URL variant).  Characters are modeled by their Unicode code points
(Nat) and strings by List Nat; `codes` converts a Lean string literal to
that representation.  JavaScript regular-expression character classes \w
and \s are modeled by `isJsWordChar` and `isJsWhitespace` (the \s set is
the full ECMAScript WhiteSpace/LineTerminator set; \w is ASCII).
-/

def codes (s : String) : List Nat := s.data.map Char.toNat

/-- ECMAScript \s (whitespace) as a predicate on code points. -/
def isJsWhitespace (c : Nat) : Bool :=
  decide (c = 9 ∨ c = 10 ∨ c = 11 ∨ c = 12 ∨ c = 13 ∨ c = 32 ∨ c = 160 ∨
    c = 5760 ∨ (8192 ≤ c ∧ c ≤ 8202) ∨ c = 8232 ∨ c = 8233 ∨ c = 8239 ∨
    c = 8287 ∨ c = 12288 ∨ c = 65279)

/-- ECMAScript \w (word character, ASCII) as a predicate on code points. -/
def isJsWordChar (c : Nat) : Bool :=
  decide ((48 ≤ c ∧ c ≤ 57) ∨ (65 ≤ c ∧ c ≤ 90) ∨ (97 ≤ c ∧ c ≤ 122) ∨ c = 95)

/-- JavaScript String.prototype.toLowerCase restricted to the ASCII range
(the only range the pipeline's proofs depend on). -/
def jsToLower (c : Nat) : Nat := if 65 ≤ c ∧ c ≤ 90 then c + 32 else c

/-- JavaScript String.prototype.trim: drop whitespace from both ends. -/
def trimWs (l : List Nat) : List Nat :=
  ((l.dropWhile isJsWhitespace).reverse.dropWhile isJsWhitespace).reverse

/-- Characters kept by the minimal sanitizer (src/src/main.tsx line 165):
everything outside the class [^\w\s-] is removed, i.e. word characters,
whitespace and the plain hyphen 45 are kept. -/
def keepMin (c : Nat) : Bool := isJsWordChar c || isJsWhitespace c || c == 45

/-- Characters kept by the extended sanitizer (src/unnamed/part_000 line
110): word characters, whitespace and the em-dash 8212 are kept. -/
def keepExt (c : Nat) : Bool := isJsWordChar c || isJsWhitespace c || c == 8212

/-- The global replacement .replace(/\s+/g, "-"): every maximal whitespace
run becomes a single hyphen.  The Bool argument records whether the
previous character was inside a whitespace run. -/
def collapseWsAux : Bool → List Nat → List Nat
  | _, [] => []
  | prevWs, c :: t =>
    if isJsWhitespace c then
      (if prevWs then collapseWsAux true t else 45 :: collapseWsAux true t)
    else c :: collapseWsAux false t

def collapseWs (l : List Nat) : List Nat := collapseWsAux false l

/-- The global replacement .replace(/\s*-\s*/g, em-dash) from
src/unnamed/part_000 line 109.  A hyphen together with the maximal
whitespace runs around it becomes a single em-dash (8212); the scan is
left-to-right as in the JavaScript regex engine.  The first argument is
true directly after an emitted em-dash (the regex has already consumed
the hyphen and is still consuming the trailing \s*); the second argument
is the pending whitespace run not yet known to precede a hyphen. -/
def ndAux : Bool → List Nat → List Nat → List Nat
  | _, pending, [] => pending
  | afterDash, pending, c :: t =>
    if c = 45 then 8212 :: ndAux true [] t
    else if isJsWhitespace c then
      (if afterDash then ndAux afterDash pending t
       else ndAux afterDash (pending ++ [c]) t)
    else pending ++ c :: ndAux false [] t

def normalizeDashes (l : List Nat) : List Nat := ndAux false [] l

/-- Minimal sanitizer, src/src/main.tsx lines 164-166:
fileName.replace(/[^\w\s-]/g, "").trim().replace(/\s+/g, "-"). -/
def sanitizeFileName (l : List Nat) : List Nat :=
  collapseWs (trimWs (l.filter keepMin))

/-- Extended sanitizer, src/unnamed/part_000 lines 107-114: normalize
dash runs to em-dashes, strip [^\w\s em-dash], trim, collapse whitespace
to hyphens, lower-case. -/
def sanitizeFileNameExt (l : List Nat) : List Nat :=
  (collapseWs (trimWs ((normalizeDashes l).filter keepExt))).map jsToLower

example : sanitizeFileName (codes ("My Post Title")) = codes ("My-Post-Title") := by decide

example : sanitizeFileNameExt (codes ("My Post - Final!")) = codes ("my-post—final") := by decide

example : sanitizeFileName (codes ("!")) = [] := by decide

/-- JavaScript s.includes(pat): pat occurs contiguously in s. -/
def jsIncludes (s pat : List Nat) : Bool :=
  match s with
  | [] => pat.isPrefixOf ([] : List Nat)
  | _ :: t => pat.isPrefixOf s || jsIncludes t pat

/-- Number of positions of s at which pat occurs. -/
def countOcc (pat : List Nat) : List Nat → Nat
  | [] => if pat.isPrefixOf ([] : List Nat) then 1 else 0
  | c :: t => (if pat.isPrefixOf (c :: t) then 1 else 0) + countOcc pat t

/-- Split s around the first (leftmost) occurrence of pat: returns the
part before the match and the part after it, or none when pat does not
occur. -/
def splitFirst (pat : List Nat) : List Nat → Option (List Nat × List Nat)
  | [] => if pat.isPrefixOf ([] : List Nat) then some ([], []) else none
  | c :: t =>
    if pat.isPrefixOf (c :: t) then some ([], (c :: t).drop pat.length)
    else (splitFirst pat t).map (fun p => (c :: p.1, p.2))

/-- GetSubstitution from the ECMAScript String.prototype.replace
specification, for a string search value (no capture groups): in the
replacement text, the code "$$" (36,36) yields "$", "$&" (36,38) the
matched substring, dollar-backquote (36,96) the text before the match
and dollar-quote (36,39) the text after it; any other use of "$" is
literal. -/
def applyDollar (pre matched post : List Nat) : List Nat → List Nat
  | [] => []
  | c :: r =>
    if c = 36 then
      match r with
      | [] => [36]
      | d :: r2 =>
        if d = 36 then 36 :: applyDollar pre matched post r2
        else if d = 38 then matched ++ applyDollar pre matched post r2
        else if d = 96 then pre ++ applyDollar pre matched post r2
        else if d = 39 then post ++ applyDollar pre matched post r2
        else 36 :: d :: applyDollar pre matched post r2
    else c :: applyDollar pre matched post r

/-- JavaScript s.replace(pat, rep) with a string pattern: replace the
first occurrence of pat, processing dollar patterns in rep; if pat does
not occur, return s unchanged. -/
def replaceFirst (s pat rep : List Nat) : List Nat :=
  match splitFirst pat s with
  | none => s
  | some (a, b) => a ++ applyDollar a pat b rep ++ b

def phFrontmatterKey : List Nat := codes ("\x7b\x7bfrontmatterKey\x7d\x7d")

def phUrl : List Nat := codes ("\x7b\x7burl\x7d\x7d")

def phTitle : List Nat := codes ("\x7b\x7btitle\x7d\x7d")

/-- Template rendering, src/unnamed/part_000 lines 169-172 (identical in
src/src/main.tsx lines 150-153): three chained .replace calls, in the
order frontmatterKey, url, title. -/
def renderTemplate (tpl key url title : List Nat) : List Nat :=
  replaceFirst (replaceFirst (replaceFirst tpl phFrontmatterKey key) phUrl url)
    phTitle title

example :
    renderTemplate (codes ("k: \x7b\x7bfrontmatterKey\x7d\x7d u: \x7b\x7burl\x7d\x7d t: \x7b\x7btitle\x7d\x7d"))
      (codes ("url")) (codes ("U")) (codes ("T")) = codes ("k: url u: U t: T") := by decide

example :
    renderTemplate (codes ("\x7b\x7burl\x7d\x7d and \x7b\x7burl\x7d\x7d"))
      (codes ("k")) (codes ("U")) (codes ("T")) = codes ("U and \x7b\x7burl\x7d\x7d") := by decide

/-- String.prototype.split on a single separator character. -/
def splitOnChar (sep : Nat) : List Nat → List (List Nat)
  | [] => [[]]
  | c :: t =>
    if c = sep then [] :: splitOnChar sep t
    else (c :: (splitOnChar sep t).headD []) :: (splitOnChar sep t).tail

/-- Array.prototype.pop on the segments of a split: the final segment. -/
def lastSegment (p : List Nat) : List Nat :=
  ((splitOnChar 47 p).getLast?).getD []

/-- Title extraction, src/unnamed/part_000 lines 161-166 (identical in
src/src/main.tsx lines 142-147).  titleText models
doc.querySelector(title)?.textContent (none when the element is absent
or its text is null); pathname and hostname are the fields of the parsed
URL object.  When the title text is missing or empty the code falls back
to pathname.split("/").pop() and, when that is empty, to the hostname. -/
def extractTitle (titleText : Option (List Nat)) (pathname hostname : List Nat) :
    List Nat :=
  let title := titleText.getD []
  if title = [] then
    (if lastSegment pathname = [] then hostname else lastSegment pathname)
  else title

/-- The claim's reading of the fallback (spec section 4.2): the last
NON-EMPTY path segment.  Stated from the spec's words, for comparison
with `extractTitle` which uses the raw final segment. -/
def specLastNonEmptySegment (p : List Nat) : Option (List Nat) :=
  ((splitOnChar 47 p).filter (fun s => !s.isEmpty)).getLast?

example : extractTitle none (codes ("/articles/")) (codes ("example.com")) = codes ("example.com") := by decide

example : extractTitle none (codes ("/blog/my-post")) (codes ("example.com")) = codes ("my-post") := by decide

def joinWith (sep : Nat) : List (List Nat) → List Nat
  | [] => []
  | [x] => x
  | x :: y :: r => x ++ sep :: joinWith sep (y :: r)

/-- Modelled from the spec: Obsidian's normalizePath helper (imported
from the obsidian package, not part of src/).  Per spec sections 4.5 and
8 it path-normalizes the joined path so that no duplicate separators
remain; leading and trailing separators are cleaned up as well. -/
def normalizePath (p : List Nat) : List Nat :=
  joinWith 47 ((splitOnChar 47 p).filter (fun s => !s.isEmpty))

inductive NoteLocation where
  | defaultLoc
  | vault
  | custom
deriving DecidableEq

structure Settings where
  template : List Nat
  frontmatterKey : List Nat
  noteLocation : NoteLocation
  customNoteLocation : List Nat
  openNewNote : Bool
deriving DecidableEq

/-- Destination-path resolution, src/unnamed/part_000 lines 116-130
(identical in src/src/main.tsx lines 168-182).  newFileParent models the
host call app.fileManager.getNewFileParent("") used for the default
location. -/
def getNotePath (s : Settings) (newFileParent : Option (List Nat))
    (fileName : List Nat) : List Nat :=
  match s.noteLocation with
  | NoteLocation.vault => fileName
  | NoteLocation.custom => normalizePath (s.customNoteLocation ++ 47 :: fileName)
  | NoteLocation.defaultLoc =>
    match newFileParent with
    | some p => normalizePath (p ++ 47 :: fileName)
    | none => fileName

example :
    getNotePath
      { template := [], frontmatterKey := [], noteLocation := NoteLocation.custom,
        customNoteLocation := codes ("Inbox/URLs"), openNewNote := false }
      none (codes ("my-post.md")) = codes ("Inbox/URLs/my-post.md") := by decide

/-- A transient host notification; duration none means the host default. -/
structure JsNotice where
  message : List Nat
  duration : Option Nat
deriving DecidableEq

/-- The message of the long-duration file-exists notice,
src/unnamed/part_000 lines 186-189. -/
def fileExistsMsg (url : List Nat) : List Nat :=
  codes ("URL: ") ++ url ++ codes ("\nError: Note with this title already exists")

/-- The catch block of processDroppedUrl, src/unnamed/part_000 lines
183-194.  isError models (error instanceof Error) and errMsg the error's
message.  Returns the notice shown and whether console.error was called
(the diagnostic log record). -/
def errorNotice (url : List Nat) (isError : Bool) (errMsg : List Nat) :
    JsNotice × Bool :=
  if isError && jsIncludes errMsg (codes ("already exists")) then
    ({ message := fileExistsMsg url, duration := some 10000 }, false)
  else
    ({ message := codes ("Error processing URL. Please try again."), duration := none }, true)

/-- Drop handling, single-URL variant (src/src/main.tsx lines 124-133):
the text/plain payload is dispatched iff it is truthy, i.e. non-empty.
Returns the list of URLs for which processDroppedUrl is started. -/
def handleDropSingle (payload : List Nat) : List (List Nat) :=
  if payload = [] then [] else [payload]

/-- Drop handling, multi-URL variant (src/unnamed/part_000 lines
200-207): split the payload on newlines and keep the lines whose trim is
truthy (non-empty). -/
def handleDropMulti (payload : List Nat) : List (List Nat) :=
  (splitOnChar 10 payload).filter (fun l => !(trimWs l).isEmpty)

example : handleDropMulti (codes (" \n\nhttps://a\n ")) = [codes ("https://a")] := by decide

/-- Events of the in-flight counter of src/unnamed/part_000: a
conversion starts (setProcessingCount(count => count + 1), line 154) or
finishes with some outcome (the finally block, line 196, runs on success
and failure alike). -/
inductive ConvEvent where
  | start : ConvEvent
  | finish : Bool → ConvEvent
deriving DecidableEq

def isStart : ConvEvent → Bool
  | ConvEvent.start => true
  | ConvEvent.finish _ => false

def isFinish : ConvEvent → Bool
  | ConvEvent.start => false
  | ConvEvent.finish _ => true

def counterStep (c : Int) : ConvEvent → Int
  | ConvEvent.start => c + 1
  | ConvEvent.finish _ => c - 1

def runCounter (c : Int) (es : List ConvEvent) : Int := es.foldl counterStep c

/-- The event trace of dropping N URLs at once: handleDrop dispatches
all conversions synchronously, so all N increments run before the first
await suspends any of them; the decrements then settle in some order,
each carrying its conversion's outcome. -/
def dropTrace (outcomes : List Bool) : List ConvEvent :=
  List.replicate outcomes.length ConvEvent.start ++ outcomes.map ConvEvent.finish

example : runCounter 0 (dropTrace [true, false, true]) = 0 := by decide

/-! ### Character-class lemmas -/

theorem word_not_ws (c : Nat) (h : isJsWordChar c = true) :
    isJsWhitespace c = false := by
  simp [isJsWordChar] at h
  simp [isJsWhitespace, decide_eq_false_iff_not]
  omega

theorem word_ne_45 (c : Nat) (h : isJsWordChar c = true) : c ≠ 45 := by
  simp [isJsWordChar] at h
  omega

theorem jsToLower_not_ws (c : Nat) (h : isJsWhitespace c = false) :
    isJsWhitespace (jsToLower c) = false := by
  unfold jsToLower
  split
  · simp [isJsWhitespace, decide_eq_false_iff_not]
    omega
  · exact h

/-! ### Lemmas about whitespace collapapse, trim and dash normalization -/

theorem collapseWsAux_not_ws (l : List Nat) :
    ∀ b c, c ∈ collapseWsAux b l → isJsWhitespace c = false := by
  induction l with
  | nil =>
    intro b c hc
    simp [collapseWsAux] at hc
  | cons d t ih =>
    intro b c hc
    by_cases hd : isJsWhitespace d = true
    · simp [collapseWsAux, hd] at hc
      cases b with
      | true =>
        simp at hc
        exact ih true c hc
      | false =>
        simp at hc
        rcases hc with rfl | hc
        · decide
        · exact ih true c hc
    · rw [Bool.not_eq_true] at hd
      simp [collapseWsAux, hd] at hc
      rcases hc with rfl | hc
      · exact hd
      · exact ih false c hc

theorem collapseWsAux_mem (l : List Nat) :
    ∀ b c, c ∈ l → isJsWhitespace c = false → c ∈ collapseWsAux b l := by
  induction l with
  | nil =>
    intro b c hc
    simp at hc
  | cons d t ih =>
    intro b c hc hw
    by_cases hd : isJsWhitespace d = true
    · have hcd : c ≠ d := by
        intro h
        rw [h, hd] at hw
        exact absurd hw (by simp)
      have hct : c ∈ t := by
        rcases List.mem_cons.mp hc with h | h
        · exact absurd h hcd
        · exact h
      simp [collapseWsAux, hd]
      cases b with
      | true => exact ih true c hct hw
      | false =>
        simp
        exact Or.inr (ih true c hct hw)
    · rw [Bool.not_eq_true] at hd
      simp [collapseWsAux, hd]
      rcases List.mem_cons.mp hc with h | h
      · exact Or.inl h
      · exact Or.inr (ih false c h hw)

theorem collapseWsAux_ne_nil (l : List Nat) (h : l ≠ []) :
    collapseWsAux false l ≠ [] := by
  cases l with
  | nil => exact absurd rfl h
  | cons d t =>
    by_cases hd : isJsWhitespace d = true
    · simp [collapseWsAux, hd]
    · rw [Bool.not_eq_true] at hd
      simp [collapseWsAux, hd]

theorem mem_dropWhile (p : Nat → Bool) (l : List Nat) (c : Nat)
    (hc : c ∈ l) (hp : p c = false) : c ∈ l.dropWhile p := by
  induction l with
  | nil => simp at hc
  | cons d t ih =>
    by_cases hd : p d = true
    · rw [List.dropWhile_cons_of_pos hd]
      rcases List.mem_cons.mp hc with h | h
      · rw [h, hd] at hp
        exact absurd hp (by simp)
      · exact ih h
    · rw [Bool.not_eq_true] at hd
      rw [List.dropWhile_cons_of_neg (by simp [hd])]
      exact hc

theorem mem_trimWs (l : List Nat) (c : Nat) (hc : c ∈ l)
    (hw : isJsWhitespace c = false) : c ∈ trimWs l := by
  unfold trimWs
  rw [List.mem_reverse]
  apply mem_dropWhile _ _ _ _ hw
  rw [List.mem_reverse]
  exact mem_dropWhile _ _ _ hc hw

theorem trimWs_all_ws (l : List Nat) (h : ∀ c ∈ l, isJsWhitespace c = true) :
    trimWs l = [] := by
  unfold trimWs
  have h1 : l.dropWhile isJsWhitespace = [] := by
    rw [List.dropWhile_eq_nil_iff]
    exact h
  rw [h1]
  simp

theorem ndAux_no_45 (l : List Nat) :
    ∀ ad pending, 45 ∉ pending → 45 ∉ ndAux ad pending l := by
  induction l with
  | nil =>
    intro ad pending hp
    simpa [ndAux] using hp
  | cons d t ih =>
    intro ad pending hp
    by_cases hd : d = 45
    · subst hd
      simp [ndAux]
      exact ih true [] (by simp)
    · by_cases hw : isJsWhitespace d = true
      · simp [ndAux, hd, hw]
        cases ad with
        | true => exact ih true pending hp
        | false =>
          simp
          apply ih false
          simp [hp]
          omega
      · rw [Bool.not_eq_true] at hw
        simp [ndAux, hd, hw]
        refine ⟨hp, ?_, ih false [] (by simp)⟩
        intro h
        exact hd h.symm

theorem ndAux_mem (l : List Nat) :
    ∀ ad pending c, c ∈ l → isJsWhitespace c = false → c ≠ 45 →
      c ∈ ndAux ad pending l := by
  induction l with
  | nil =>
    intro ad pending c hc
    simp at hc
  | cons d t ih =>
    intro ad pending c hc hcw hc45
    by_cases hd : d = 45
    · subst hd
      have hct : c ∈ t := by
        rcases List.mem_cons.mp hc with h | h
        · exact absurd h hc45
        · exact h
      simp [ndAux]
      exact Or.inr (ih true [] c hct hcw hc45)
    · by_cases hw : isJsWhitespace d = true
      · have hcd : c ≠ d := by
          intro h
          rw [h, hw] at hcw
          exact absurd hcw (by simp)
        have hct : c ∈ t := by
          rcases List.mem_cons.mp hc with h | h
          · exact absurd h hcd
          · exact h
        simp [ndAux, hd, hw]
        cases ad with
        | true => exact ih true pending c hct hcw hc45
        | false => exact ih false (pending ++ [d]) c hct hcw hc45
      · rw [Bool.not_eq_true] at hw
        simp [ndAux, hd, hw]
        rcases List.mem_cons.mp hc with h | h
        · exact Or.inr (Or.inl h)
        · exact Or.inr (Or.inr (ih false [] c h hcw hc45))

theorem ndAux_mem_8212 (l : List Nat) :
    ∀ ad pending, 45 ∈ l → 8212 ∈ ndAux ad pending l := by
  induction l with
  | nil =>
    intro ad pending h
    simp at h
  | cons d t ih =>
    intro ad pending h
    by_cases hd : d = 45
    · subst hd
      simp [ndAux]
    · have ht : 45 ∈ t := by
        rcases List.mem_cons.mp h with h2 | h2
        · exact absurd h2.symm hd
        · exact h2
      by_cases hw : isJsWhitespace d = true
      · simp [ndAux, hd, hw]
        cases ad with
        | true => exact ih true pending ht
        | false => exact ih false (pending ++ [d]) ht
      · rw [Bool.not_eq_true] at hw
        simp [ndAux, hd, hw]
        exact Or.inr (Or.inr (ih false [] ht))

/-! ### Substring lemmas -/

theorem jsIncludes_sound (s pat : List Nat) (h : jsIncludes s pat = true) :
    ∃ a b, s = a ++ pat ++ b := by
  induction s with
  | nil =>
    simp only [jsIncludes] at h
    rw [List.isPrefixOf_iff_prefix] at h
    rcases List.prefix_nil.mp h with rfl
    exact ⟨[], [], rfl⟩
  | cons c t ih =>
    simp only [jsIncludes, Bool.or_eq_true] at h
    rcases h with h | h
    · rcases List.isPrefixOf_iff_prefix.mp h with ⟨b, hb⟩
      exact ⟨[], b, by simp [hb]⟩
    · rcases ih h with ⟨a, b, hab⟩
      exact ⟨c :: a, b, by simp [hab]⟩

theorem jsIncludes_middle (a pat b : List Nat) :
    jsIncludes (a ++ pat ++ b) pat = true := by
  induction a with
  | nil =>
    rw [List.nil_append]
    cases h : pat ++ b with
    | nil =>
      rcases List.append_eq_nil.mp h with ⟨rfl, rfl⟩
      decide
    | cons x r =>
      simp only [jsIncludes, Bool.or_eq_true]
      refine Or.inl ?_
      rw [← h]
      exact List.isPrefixOf_iff_prefix.mpr ⟨b, rfl⟩
  | cons c t ih =>
    simp only [List.cons_append, jsIncludes, Bool.or_eq_true]
    exact Or.inr ih

/-! ### Claim C1 -/

/-- C1 counterexample: the title "!" is non-empty, yet both sanitizer
variants return the empty string (every character is stripped and nothing
remains after trimming). -/
theorem sanitize_nonempty_counterexample :
    sanitizeFileName (codes ("!")) = [] ∧
    sanitizeFileNameExt (codes ("!")) = [] ∧
    codes ("!") ≠ [] := by decide

/-- C1 (amended): for every title, both sanitizer variants return a string
containing no whitespace characters; the result is non-empty whenever the
title contains at least one word character, but a non-empty title made
only of stripped characters (such as "!") yields the empty string. -/
theorem sanitize_no_whitespace (title : List Nat) :
    (∀ c ∈ sanitizeFileName title, isJsWhitespace c = false) ∧
    (∀ c ∈ sanitizeFileNameExt title, isJsWhitespace c = false) ∧
    ((∃ c ∈ title, isJsWordChar c = true) →
      sanitizeFileName title ≠ [] ∧ sanitizeFileNameExt title ≠ []) := by
  refine ⟨?_, ?_, ?_⟩
  · intro c hc
    exact collapseWsAux_not_ws _ false c hc
  · intro c hc
    unfold sanitizeFileNameExt at hc
    rcases List.mem_map.mp hc with ⟨d, hd, rfl⟩
    exact jsToLower_not_ws d (collapseWsAux_not_ws _ false d hd)
  · rintro ⟨c, hcmem, hcw⟩
    have hcnw : isJsWhitespace c = false := word_not_ws c hcw
    constructor
    · apply collapseWsAux_ne_nil
      apply List.ne_nil_of_mem (a := c)
      apply mem_trimWs _ _ _ hcnw
      exact List.mem_filter.mpr ⟨hcmem, by simp [keepMin, hcw]⟩
    · have h1 : c ∈ normalizeDashes title :=
        ndAux_mem title false [] c hcmem hcnw (word_ne_45 c hcw)
      have h2 : c ∈ (normalizeDashes title).filter keepExt :=
        List.mem_filter.mpr ⟨h1, by simp [keepExt, hcw]⟩
      have h3 : c ∈ trimWs ((normalizeDashes title).filter keepExt) :=
        mem_trimWs _ c h2 hcnw
      have h4 : collapseWs (trimWs ((normalizeDashes title).filter keepExt)) ≠ [] :=
        collapseWsAux_ne_nil _ (List.ne_nil_of_mem h3)
      unfold sanitizeFileNameExt
      intro h
      rw [List.map_eq_nil_iff] at h
      exact h4 h

theorem sanitize_no_whitespace_witness :
    sanitizeFileName (codes ("a b")) ≠ [] ∧
    sanitizeFileNameExt (codes ("a b")) ≠ [] :=
  (sanitize_no_whitespace (codes ("a b"))).2.2 ⟨97, by decide, by decide⟩

/-! ### Claim C7 -/

/-- C7: whenever a title contains a " - " sequence, the extended
sanitizer's output contains an em-dash; moreover no hyphen of the input
survives dash normalization (so any hyphen in the output stems from
whitespace collapsing, not from an input hyphen), and the pipeline is
exactly normalize-dashes, strip, trim, collapse-whitespace, lower-case. -/
theorem sanitizeExt_emdash (title : List Nat)
    (h : jsIncludes title (codes (" - ")) = true) :
    8212 ∈ sanitizeFileNameExt title ∧
    45 ∉ normalizeDashes title ∧
    sanitizeFileNameExt title =
      (collapseWs (trimWs ((normalizeDashes title).filter keepExt))).map jsToLower := by
  refine ⟨?_, ndAux_no_45 title false [] (by simp), rfl⟩
  have h45 : 45 ∈ title := by
    rcases jsIncludes_sound _ _ h with ⟨a, b, hab⟩
    rw [hab]
    have hm : (45 : Nat) ∈ codes (" - ") := by decide
    exact List.mem_append.mpr (Or.inl (List.mem_append.mpr (Or.inr hm)))
  have h1 : 8212 ∈ normalizeDashes title := ndAux_mem_8212 title false [] h45
  have h2 : 8212 ∈ (normalizeDashes title).filter keepExt :=
    List.mem_filter.mpr ⟨h1, by decide⟩
  have h3 : 8212 ∈ trimWs ((normalizeDashes title).filter keepExt) :=
    mem_trimWs _ _ h2 (by decide)
  have h4 : 8212 ∈ collapseWs (trimWs ((normalizeDashes title).filter keepExt)) :=
    collapseWsAux_mem _ false _ h3 (by decide)
  exact List.mem_map.mpr ⟨8212, h4, by decide⟩

theorem sanitizeExt_emdash_witness :
    8212 ∈ sanitizeFileNameExt (codes ("a - b")) :=
  (sanitizeExt_emdash (codes ("a - b")) (by decide)).1

/-! ### Lemmas about first-occurrence replacement -/

theorem splitFirst_sound (pat : List Nat) :
    ∀ s a b, splitFirst pat s = some (a, b) → s = a ++ pat ++ b := by
  intro s
  induction s with
  | nil =>
    intro a b h
    simp only [splitFirst] at h
    split at h
    · rename_i hpre
      rcases List.prefix_nil.mp (List.isPrefixOf_iff_prefix.mp hpre) with rfl
      simp only [Option.some.injEq, Prod.mk.injEq] at h
      rcases h with ⟨rfl, rfl⟩
      rfl
    · exact absurd h (by simp)
  | cons c t ih =>
    intro a b h
    simp only [splitFirst] at h
    split at h
    · rename_i hpre
      rcases List.isPrefixOf_iff_prefix.mp hpre with ⟨r, hr⟩
      simp only [Option.some.injEq, Prod.mk.injEq] at h
      rcases h with ⟨rfl, rfl⟩
      rw [List.nil_append, ← hr, List.drop_left]
    · rw [Option.map_eq_some'] at h
      rcases h with ⟨⟨a1, b1⟩, hp, heq⟩
      simp only [Prod.mk.injEq] at heq
      rcases heq with ⟨rfl, rfl⟩
      rw [ih a1 b1 hp]
      rfl

theorem splitFirst_minimal (pat : List Nat) :
    ∀ s a b, splitFirst pat s = some (a, b) →
      ∀ a2 b2, s = a2 ++ pat ++ b2 → a.length ≤ a2.length := by
  intro s
  induction s with
  | nil =>
    intro a b h
    simp only [splitFirst] at h
    split at h
    · simp only [Option.some.injEq, Prod.mk.injEq] at h
      rcases h with ⟨rfl, rfl⟩
      intro a2 b2 _
      exact Nat.zero_le _
    · exact absurd h (by simp)
  | cons c t ih =>
    intro a b h
    simp only [splitFirst] at h
    split at h
    · simp only [Option.some.injEq, Prod.mk.injEq] at h
      rcases h with ⟨rfl, rfl⟩
      intro a2 b2 _
      exact Nat.zero_le _
    · rename_i hpre
      rw [Option.map_eq_some'] at h
      rcases h with ⟨⟨a1, b1⟩, hp, heq⟩
      simp only [Prod.mk.injEq] at heq
      rcases heq with ⟨rfl, rfl⟩
      intro a2 b2 h2
      cases a2 with
      | nil =>
        exfalso
        apply hpre
        rw [List.nil_append] at h2
        exact List.isPrefixOf_iff_prefix.mpr ⟨b2, by rw [h2]⟩
      | cons c2 t2 =>
        simp only [List.cons_append, List.cons.injEq] at h2
        simp only [List.length_cons]
        exact Nat.succ_le_succ (ih a1 b1 hp t2 b2 h2.2)

theorem splitFirst_eq_none_iff (pat : List Nat) :
    ∀ s, splitFirst pat s = none ↔ jsIncludes s pat = false := by
  intro s
  induction s with
  | nil =>
    by_cases hp : pat.isPrefixOf ([] : List Nat) = true <;>
      simp [splitFirst, jsIncludes, hp]
  | cons c t ih =>
    by_cases hp : pat.isPrefixOf (c :: t) = true <;>
      simp [splitFirst, jsIncludes, hp, Option.map_eq_none', ih]

theorem replaceFirst_of_not_includes (s pat rep : List Nat)
    (h : jsIncludes s pat = false) : replaceFirst s pat rep = s := by
  unfold replaceFirst
  rw [(splitFirst_eq_none_iff pat s).mpr h]

theorem applyDollar_no_dollar (pre matched post : List Nat) :
    ∀ rep, 36 ∉ rep → applyDollar pre matched post rep = rep := by
  intro rep
  induction rep with
  | nil => intro; rfl
  | cons c r ih =>
    intro h
    have hc : ¬c = 36 := by
      intro e
      exact h (e ▸ List.mem_cons_self c r)
    rw [applyDollar.eq_def]
    simp only [if_neg hc]
    rw [ih fun hm => h (List.mem_cons_of_mem _ hm)]

/-! ### Claim C4 -/

/-- C4 counterexample: the substitutions are not literal.  JavaScript
String.prototype.replace expands dollar patterns in the replacement
value: with key "$&" the first substitution re-inserts the matched
placeholder itself instead of the key, so the rendered output is the
unchanged template rather than "$&". -/
theorem render_dollar_counterexample :
    renderTemplate (codes ("\x7b\x7bfrontmatterKey\x7d\x7d")) (codes ("$&"))
        (codes ("u")) (codes ("t")) = codes ("\x7b\x7bfrontmatterKey\x7d\x7d") ∧
    codes ("\x7b\x7bfrontmatterKey\x7d\x7d") ≠ codes ("$&") := by decide

/-- C4 (amended): the renderer performs the three substitutions in the
order frontmatterKey, url, title, and each substitution rewrites exactly
the first (leftmost) occurrence of its placeholder — the suffix after
that occurrence, including any later occurrences, is appended unchanged —
and is literal provided the substituted value contains no dollar sign;
a placeholder that does not occur leaves the string unchanged. -/
theorem renderTemplate_single_shot (tpl key url title : List Nat) :
    renderTemplate tpl key url title =
      replaceFirst (replaceFirst (replaceFirst tpl phFrontmatterKey key) phUrl url)
        phTitle title ∧
    (∀ s pat rep a b, 36 ∉ rep → splitFirst pat s = some (a, b) →
      replaceFirst s pat rep = a ++ rep ++ b ∧
      s = a ++ pat ++ b ∧
      ∀ a2 b2, s = a2 ++ pat ++ b2 → a.length ≤ a2.length) ∧
    (∀ s pat rep, splitFirst pat s = none → replaceFirst s pat rep = s) := by
  refine ⟨rfl, ?_, ?_⟩
  · intro s pat rep a b hrep hsplit
    refine ⟨?_, splitFirst_sound pat s a b hsplit, splitFirst_minimal pat s a b hsplit⟩
    unfold replaceFirst
    rw [hsplit]
    show a ++ applyDollar a pat b rep ++ b = a ++ rep ++ b
    rw [applyDollar_no_dollar _ _ _ rep hrep]
  · intro s pat rep h
    unfold replaceFirst
    rw [h]

theorem renderTemplate_single_shot_witness :
    replaceFirst (codes ("x\x7b\x7burl\x7d\x7dy\x7b\x7burl\x7d\x7dz")) phUrl
        (codes ("U")) =
      codes ("x") ++ codes ("U") ++ codes ("y\x7b\x7burl\x7d\x7dz") :=
  ((renderTemplate_single_shot [] [] [] []).2.1
    (codes ("x\x7b\x7burl\x7d\x7dy\x7b\x7burl\x7d\x7dz")) phUrl (codes ("U"))
    (codes ("x")) (codes ("y\x7b\x7burl\x7d\x7dz")) (by decide) (by decide)).1

/-! ### Claim C5 -/

/-- C5 counterexample: in the template of four braces, url, four braces,
every placeholder occurs at most once ({{url}} exactly once, the others
not at all) and the values contain no placeholder, yet substituting url
with the value "url" re-creates a {{url}} occurrence across the
substitution boundary: the output still contains {{url}} and rendering a
second time changes it again. -/
theorem renderTemplate_not_idempotent :
    countOcc phFrontmatterKey (codes ("\x7b\x7b\x7b\x7burl\x7d\x7d\x7d\x7d")) = 0 ∧
    countOcc phUrl (codes ("\x7b\x7b\x7b\x7burl\x7d\x7d\x7d\x7d")) = 1 ∧
    countOcc phTitle (codes ("\x7b\x7b\x7b\x7burl\x7d\x7d\x7d\x7d")) = 0 ∧
    renderTemplate (codes ("\x7b\x7b\x7b\x7burl\x7d\x7d\x7d\x7d")) (codes ("k"))
        (codes ("url")) (codes ("t")) = codes ("\x7b\x7burl\x7d\x7d") ∧
    renderTemplate
        (renderTemplate (codes ("\x7b\x7b\x7b\x7burl\x7d\x7d\x7d\x7d")) (codes ("k"))
          (codes ("url")) (codes ("t"))) (codes ("k")) (codes ("url")) (codes ("t")) ≠
      renderTemplate (codes ("\x7b\x7b\x7b\x7burl\x7d\x7d\x7d\x7d")) (codes ("k"))
        (codes ("url")) (codes ("t")) ∧
    jsIncludes
        (renderTemplate (codes ("\x7b\x7b\x7b\x7burl\x7d\x7d\x7d\x7d")) (codes ("k"))
          (codes ("url")) (codes ("t"))) phUrl = true := by
  decide

/-- C5 (amended): rendering is idempotent whenever the rendered output
contains no occurrence of any of the three placeholders (which the
counterexample shows is not guaranteed by the placeholders occurring at
most once in the template, since substitution can create an occurrence
across a boundary): rendering that output again leaves it unchanged. -/
theorem renderTemplate_idempotent (tpl key url title : List Nat)
    (h1 : jsIncludes (renderTemplate tpl key url title) phFrontmatterKey = false)
    (h2 : jsIncludes (renderTemplate tpl key url title) phUrl = false)
    (h3 : jsIncludes (renderTemplate tpl key url title) phTitle = false) :
    renderTemplate (renderTemplate tpl key url title) key url title =
      renderTemplate tpl key url title := by
  generalize hr : renderTemplate tpl key url title = r at h1 h2 h3 ⊢
  show replaceFirst (replaceFirst (replaceFirst r phFrontmatterKey key) phUrl url)
      phTitle title = r
  rw [replaceFirst_of_not_includes r phFrontmatterKey key h1,
      replaceFirst_of_not_includes r phUrl url h2,
      replaceFirst_of_not_includes r phTitle title h3]

theorem renderTemplate_idempotent_witness :
    renderTemplate
        (renderTemplate (codes ("u: \x7b\x7burl\x7d\x7d")) (codes ("k")) (codes ("U"))
          (codes ("T"))) (codes ("k")) (codes ("U")) (codes ("T")) =
      renderTemplate (codes ("u: \x7b\x7burl\x7d\x7d")) (codes ("k")) (codes ("U"))
        (codes ("T")) :=
  renderTemplate_idempotent _ _ _ _ (by decide) (by decide) (by decide)

/-! ### Lemmas about the in-flight counter -/

theorem runCounter_append (c : Int) (a b : List ConvEvent) :
    runCounter c (a ++ b) = runCounter (runCounter c a) b := by
  unfold runCounter
  exact List.foldl_append counterStep c a b

theorem runCounter_replicate_start (c : Int) (n : Nat) :
    runCounter c (List.replicate n ConvEvent.start) = c + n := by
  induction n generalizing c with
  | zero => simp [runCounter]
  | succ m ih =>
    rw [List.replicate_succ]
    show runCounter (counterStep c ConvEvent.start) (List.replicate m ConvEvent.start) =
      c + (m + 1 : Nat)
    rw [ih]
    simp [counterStep]
    omega

theorem runCounter_map_finish (c : Int) (os : List Bool) :
    runCounter c (os.map ConvEvent.finish) = c - os.length := by
  induction os generalizing c with
  | nil => simp [runCounter]
  | cons o t ih =>
    rw [List.map_cons]
    show runCounter (counterStep c (ConvEvent.finish o)) (t.map ConvEvent.finish) =
      c - (t.length + 1 : Nat)
    rw [ih]
    simp [counterStep]
    omega

theorem countP_replicate_start (n : Nat) :
    (List.replicate n ConvEvent.start).countP isStart = n ∧
    (List.replicate n ConvEvent.start).countP isFinish = 0 := by
  induction n with
  | zero => simp
  | succ m ih =>
    rw [List.replicate_succ]
    simp [List.countP_cons, isStart, isFinish, ih.1, ih.2]

theorem countP_map_finish (os : List Bool) :
    (os.map ConvEvent.finish).countP isStart = 0 ∧
    (os.map ConvEvent.finish).countP isFinish = os.length := by
  induction os with
  | nil => simp
  | cons o t ih =>
    rw [List.map_cons]
    simp [List.countP_cons, isStart, isFinish, ih.1, ih.2]

/-! ### Claim C6 -/

/-- C6: the trace of dropping N URLs contains exactly N increments (one
per conversion start) and exactly N decrements (one per settled
conversion, whatever its outcome); the counter starting from 0 reaches N
after the N synchronous increments, never goes negative at any point of
the trace, and is back to 0 after all conversions settle, for every
combination of outcomes. -/
theorem processingCount_balanced (outcomes : List Bool) :
    runCounter 0 (dropTrace outcomes) = 0 ∧
    runCounter 0 ((dropTrace outcomes).take outcomes.length) = outcomes.length ∧
    (∀ k, 0 ≤ runCounter 0 ((dropTrace outcomes).take k)) ∧
    (dropTrace outcomes).countP isStart = outcomes.length ∧
    (dropTrace outcomes).countP isFinish = outcomes.length := by
  unfold dropTrace
  refine ⟨?_, ?_, ?_, ?_, ?_⟩
  · rw [runCounter_append, runCounter_replicate_start, runCounter_map_finish]
    omega
  · rw [List.take_append_eq_append_take, List.length_replicate, Nat.sub_self,
      List.take_zero, List.append_nil, List.take_replicate, Nat.min_self,
      runCounter_replicate_start]
    omega
  · intro k
    rw [List.take_append_eq_append_take, List.length_replicate, List.take_replicate,
      runCounter_append, runCounter_replicate_start, ← List.map_take,
      runCounter_map_finish, List.length_take]
    have h1 : min (k - outcomes.length) outcomes.length ≤ outcomes.length :=
      Nat.min_le_right _ _
    have h2 : min (k - outcomes.length) outcomes.length ≤ min k outcomes.length := by
      rcases Nat.le_total k outcomes.length with h | h
      · rw [Nat.sub_eq_zero_of_le h]
        simp
      · rw [Nat.min_eq_right h]
        exact h1
    omega
  · rw [List.countP_append, (countP_replicate_start outcomes.length).1,
      (countP_map_finish outcomes).1]
    omega
  · rw [List.countP_append, (countP_replicate_start outcomes.length).2,
      (countP_map_finish outcomes).2]
    omega

/-! ### Lemmas about path splitting and joining -/

theorem splitOnChar_ne_nil (sep : Nat) (l : List Nat) : splitOnChar sep l ≠ [] := by
  cases l with
  | nil => simp [splitOnChar]
  | cons c t => by_cases h : c = sep <;> simp [splitOnChar, h]

theorem splitOnChar_append (sep : Nat) (a b : List Nat) :
    splitOnChar sep (a ++ sep :: b) = splitOnChar sep a ++ splitOnChar sep b := by
  induction a with
  | nil => simp [splitOnChar]
  | cons c t ih =>
    by_cases h : c = sep
    · subst h
      simp [splitOnChar, ih]
    · obtain ⟨h1, r1, hsplit⟩ : ∃ h1 r1, splitOnChar sep t = h1 :: r1 := by
        cases hsp : splitOnChar sep t with
        | nil => exact absurd hsp (splitOnChar_ne_nil _ _)
        | cons a1 b1 => exact ⟨a1, b1, rfl⟩
      simp [splitOnChar, h, ih, hsplit]

theorem splitOnChar_no_sep (sep : Nat) (l : List Nat) (h : sep ∉ l) :
    splitOnChar sep l = [l] := by
  induction l with
  | nil => rfl
  | cons c t ih =>
    have hc : ¬c = sep := by
      intro e
      apply h
      rw [← e]
      exact List.mem_cons_self c t
    simp [splitOnChar, hc, ih fun hm => h (List.mem_cons_of_mem _ hm)]

theorem splitOnChar_join (sep : Nat) :
    ∀ segs : List (List Nat), segs ≠ [] → (∀ x ∈ segs, sep ∉ x) →
      splitOnChar sep (joinWith sep segs) = segs := by
  intro segs
  induction segs with
  | nil =>
    intro h
    exact absurd rfl h
  | cons x r ih =>
    intro _ hall
    cases r with
    | nil =>
      show splitOnChar sep x = [x]
      exact splitOnChar_no_sep sep x (hall x (List.mem_cons_self _ _))
    | cons y r2 =>
      show splitOnChar sep (x ++ sep :: joinWith sep (y :: r2)) = x :: y :: r2
      rw [splitOnChar_append,
        splitOnChar_no_sep sep x (hall x (List.mem_cons_self _ _)),
        ih (by simp) fun z hz => hall z (List.mem_cons_of_mem _ hz)]
      rfl

theorem mem_of_mem_splitOnChar (sep : Nat) :
    ∀ l seg c, seg ∈ splitOnChar sep l → c ∈ seg → c ∈ l := by
  intro l
  induction l with
  | nil =>
    intro seg c hseg hc
    simp [splitOnChar] at hseg
    subst hseg
    simp at hc
  | cons d t ih =>
    intro seg c hseg hc
    by_cases hd : d = sep
    · subst hd
      simp [splitOnChar] at hseg
      rcases hseg with rfl | hseg
      · simp at hc
      · exact List.mem_cons_of_mem _ (ih seg c hseg hc)
    · obtain ⟨h1, r1, hsplit⟩ : ∃ h1 r1, splitOnChar sep t = h1 :: r1 := by
        cases hsp : splitOnChar sep t with
        | nil => exact absurd hsp (splitOnChar_ne_nil _ _)
        | cons a1 b1 => exact ⟨a1, b1, rfl⟩
      simp [splitOnChar, hd, hsplit] at hseg
      rcases hseg with rfl | hseg
      · rcases List.mem_cons.mp hc with rfl | hc2
        · exact List.mem_cons_self _ _
        · refine List.mem_cons_of_mem _ (ih h1 c ?_ hc2)
          rw [hsplit]
          exact List.mem_cons_self _ _
      · refine List.mem_cons_of_mem _ (ih seg c ?_ hc)
        rw [hsplit]
        exact List.mem_cons_of_mem _ hseg

theorem getLast?_eq_some (l : List Nat) (x : Nat) (h : l.getLast? = some x) :
    ∃ m, l = m ++ [x] := by
  induction l with
  | nil => simp at h
  | cons c t ih =>
    cases t with
    | nil =>
      simp [List.getLast?] at h
      exact ⟨[], by rw [h]; rfl⟩
    | cons d r =>
      rw [List.getLast?_cons_cons] at h
      rcases ih h with ⟨m, hm⟩
      exact ⟨c :: m, by rw [List.cons_append, ← hm]⟩

/-! ### Claim C2 -/

/-- C2 counterexample: for the URL path /a/b// the last NON-EMPTY path
segment is "b", but the code computes pathname.split("/").pop(), i.e. the
raw final segment, which is empty here, so the extractor falls back to
the hostname instead of returning "b". -/
theorem extractTitle_lastSegment_counterexample :
    specLastNonEmptySegment (codes ("/a/b//")) = some (codes ("b")) ∧
    extractTitle none (codes ("/a/b//")) (codes ("example.com")) =
      codes ("example.com") ∧
    codes ("example.com") ≠ codes ("b") := by decide

/-- C2 (amended): with no usable title, the extractor returns the raw
final path segment (the text after the last slash) when it is non-empty;
whenever the path ends in a slash — even when earlier non-empty segments
exist — and for the empty path, it returns the hostname. -/
theorem extractTitle_lastSegment (p seg host : List Nat) (h1 : seg ≠ [])
    (h2 : 47 ∉ seg) :
    extractTitle none (p ++ 47 :: seg) host = seg ∧
    (∀ q : List Nat, q.getLast? = some 47 → extractTitle none q host = host) ∧
    extractTitle none [] host = host := by
  refine ⟨?_, ?_, rfl⟩
  · simp only [extractTitle, lastSegment, Option.getD_none, if_pos rfl]
    rw [splitOnChar_append, splitOnChar_no_sep 47 seg h2, List.getLast?_concat]
    simp [h1]
  · intro q hq
    rcases getLast?_eq_some q 47 hq with ⟨m, rfl⟩
    simp only [extractTitle, lastSegment, Option.getD_none, if_pos rfl]
    rw [show m ++ [47] = m ++ 47 :: ([] : List Nat) from rfl, splitOnChar_append]
    rw [show splitOnChar 47 ([] : List Nat) = [[]] from rfl, List.getLast?_concat]
    simp

theorem extractTitle_lastSegment_witness :
    extractTitle none (codes ("/blog") ++ 47 :: codes ("my-post")) (codes ("e.com")) =
      codes ("my-post") :=
  (extractTitle_lastSegment (codes ("/blog")) (codes ("my-post")) (codes ("e.com"))
    (by decide) (by decide)).1

/-! ### Claim C8 -/

/-- C8 counterexample: the parseable URL file:/// has pathname "/" and an
empty hostname; its path's final segment is empty, so with no title text
the extractor returns the empty hostname — the empty string. -/
theorem extractTitle_empty_counterexample :
    extractTitle none (codes ("/")) (codes ("")) = [] := by decide

/-- C8 (amended): for every title text and path the extractor returns a
non-empty string provided the URL's hostname is non-empty (which holds
for every http/https URL; URLs such as file:/// have an empty hostname
and defeat the fallback chain). -/
theorem extractTitle_nonempty (t : Option (List Nat)) (path host : List Nat)
    (h : host ≠ []) : extractTitle t path host ≠ [] := by
  simp only [extractTitle]
  by_cases ht : t.getD [] = []
  · rw [if_pos ht]
    by_cases hseg : lastSegment path = []
    · rw [if_pos hseg]
      exact h
    · rw [if_neg hseg]
      exact hseg
  · rw [if_neg ht]
    exact ht

theorem extractTitle_nonempty_witness :
    extractTitle none (codes ("/articles/")) (codes ("example.com")) ≠ [] :=
  extractTitle_nonempty none (codes ("/articles/")) (codes ("example.com"))
    (by decide)

/-! ### Claim C9 -/

/-- C9: with noteLocation custom, the note path is the custom location
joined with the filename and path-normalized (last conjunct, for an
arbitrary custom location); for customNoteLocation "Inbox/URLs" and a
filename that is non-empty and slash-free (as every sanitizer output is)
the resolved path is Inbox/URLs/ followed by the filename, and splitting
it on the separator yields no empty segment — no duplicate separators
and no leading or trailing slash. -/
theorem getNotePath_custom (s : Settings) (nfp : Option (List Nat)) (f : List Nat)
    (hloc : s.noteLocation = NoteLocation.custom)
    (hcust : s.customNoteLocation = codes ("Inbox/URLs"))
    (hf1 : f ≠ []) (hf2 : 47 ∉ f) :
    getNotePath s nfp f = codes ("Inbox/URLs/") ++ f ∧
    (∀ seg ∈ splitOnChar 47 (getNotePath s nfp f), seg ≠ []) ∧
    (∀ s2 : Settings, ∀ nfp2 f2, s2.noteLocation = NoteLocation.custom →
      getNotePath s2 nfp2 f2 = normalizePath (s2.customNoteLocation ++ 47 :: f2)) := by
  have hfe : f.isEmpty = false := by
    cases f with
    | nil => exact absurd rfl hf1
    | cons a t => rfl
  have hsplit : splitOnChar 47 (codes ("Inbox/URLs") ++ 47 :: f) =
      [codes ("Inbox"), codes ("URLs"), f] := by
    rw [splitOnChar_append, splitOnChar_no_sep 47 f hf2]
    rw [show splitOnChar 47 (codes ("Inbox/URLs")) = [codes ("Inbox"), codes ("URLs")]
      from by decide]
    rfl
  have hpath : getNotePath s nfp f =
      joinWith 47 [codes ("Inbox"), codes ("URLs"), f] := by
    simp only [getNotePath, hloc, hcust]
    unfold normalizePath
    rw [hsplit]
    have e1 : (codes ("Inbox")).isEmpty = false := by decide
    have e2 : (codes ("URLs")).isEmpty = false := by decide
    simp [List.filter, e1, e2, hfe]
  have hns : ∀ x ∈ [codes ("Inbox"), codes ("URLs"), f], 47 ∉ x := by
    intro x hx
    simp only [List.mem_cons, List.not_mem_nil, or_false] at hx
    rcases hx with rfl | rfl | rfl
    · decide
    · decide
    · exact hf2
  refine ⟨?_, ?_, ?_⟩
  · rw [hpath]
    show codes ("Inbox") ++ 47 :: (codes ("URLs") ++ 47 :: f) = codes ("Inbox/URLs/") ++ f
    rw [show codes ("Inbox/URLs/") = codes ("Inbox") ++ 47 :: (codes ("URLs") ++ [47])
      from by decide]
    simp
  · intro seg hseg
    rw [hpath, splitOnChar_join 47 [codes ("Inbox"), codes ("URLs"), f] (by simp) hns]
      at hseg
    simp only [List.mem_cons, List.not_mem_nil, or_false] at hseg
    rcases hseg with rfl | rfl | rfl
    · decide
    · decide
    · exact hf1
  · intro s2 nfp2 f2 h2
    simp only [getNotePath, h2]

theorem getNotePath_custom_witness :
    getNotePath
      { template := [], frontmatterKey := [], noteLocation := NoteLocation.custom,
        customNoteLocation := codes ("Inbox/URLs"), openNewNote := false }
      none (codes ("my-post.md")) = codes ("Inbox/URLs/") ++ codes ("my-post.md") :=
  (getNotePath_custom _ none (codes ("my-post.md")) rfl rfl (by decide) (by decide)).1

/-! ### Claim C10 -/

/-- C10 counterexample: a payload of a single space is whitespace-only
yet truthy in JavaScript, so the single-URL variant's guard
(if (url) processDroppedUrl(url)) dispatches a conversion for it: a
fetch is started for the whitespace-only string. -/
theorem handleDrop_whitespace_counterexample :
    handleDropSingle (codes (" ")) = [codes (" ")] ∧
    (∀ c ∈ codes (" "), isJsWhitespace c = true) ∧
    codes (" ") ≠ [] := by decide

/-- C10 (amended): an empty payload starts no conversion in either
variant, and the multi-URL variant filters out whitespace-only payloads
entirely; the single-URL variant, however, guards only on non-emptiness
and dispatches every non-empty payload, including whitespace-only
ones. -/
theorem handleDrop_dispatch (payload : List Nat) :
    handleDropSingle [] = [] ∧
    handleDropMulti [] = [] ∧
    ((∀ c ∈ payload, isJsWhitespace c = true) → handleDropMulti payload = []) ∧
    (payload ≠ [] → handleDropSingle payload = [payload]) := by
  refine ⟨rfl, by decide, ?_, ?_⟩
  · intro hall
    unfold handleDropMulti
    rw [List.filter_eq_nil_iff]
    intro seg hseg
    have ht : trimWs seg = [] :=
      trimWs_all_ws seg fun c hc =>
        hall c (mem_of_mem_splitOnChar 10 payload seg c hseg hc)
    simp [ht]
  · intro h
    unfold handleDropSingle
    rw [if_neg h]

theorem handleDrop_dispatch_witness :
    handleDropMulti (codes (" \n  ")) = [] ∧
    handleDropSingle (codes ("https://a")) = [codes ("https://a")] :=
  ⟨(handleDrop_dispatch (codes (" \n  "))).2.2.1 (by decide),
   (handleDrop_dispatch (codes ("https://a"))).2.2.2 (by decide)⟩

/-! ### Claim C3 -/

/-- C3 counterexample: for the conversion of url https://e.co/x whose
note title is "My Post", a file-exists failure shows the long (10000 ms)
notice, but the notice's message does not contain the conflicting title
"My Post" — it names the URL instead. -/
theorem errorNotice_title_counterexample :
    (errorNotice (codes ("https://e.co/x")) true
      (codes ("File already exists."))).1.duration = some 10000 ∧
    jsIncludes (errorNotice (codes ("https://e.co/x")) true
      (codes ("File already exists."))).1.message (codes ("My Post")) = false ∧
    jsIncludes (errorNotice (codes ("https://e.co/x")) true
      (codes ("File already exists."))).1.message (codes ("https://e.co/x")) = true := by
  decide

/-- C3 (amended): when note creation fails with an error whose message
contains "already exists", the pipeline shows a 10000 ms notice whose
message names the conflicting URL (not the title), and nothing is sent
to the diagnostic log; every other error yields the short generic notice
with host-default duration plus a console.error record. -/
theorem errorNotice_messages (url errMsg : List Nat)
    (h : jsIncludes errMsg (codes ("already exists")) = true) :
    errorNotice url true errMsg =
      ({ message := fileExistsMsg url, duration := some 10000 }, false) ∧
    jsIncludes (fileExistsMsg url) url = true ∧
    (∀ u m, jsIncludes m (codes ("already exists")) = false →
      errorNotice u true m =
        ({ message := codes ("Error processing URL. Please try again."),
           duration := none }, true)) ∧
    (∀ u m, errorNotice u false m =
      ({ message := codes ("Error processing URL. Please try again."),
         duration := none }, true)) := by
  refine ⟨?_, ?_, ?_, ?_⟩
  · simp [errorNotice, h]
  · exact jsIncludes_middle (codes ("URL: ")) url
      (codes ("\nError: Note with this title already exists"))
  · intro u m hm
    simp [errorNotice, hm]
  · intro u m
    simp [errorNotice]

theorem errorNotice_messages_witness :
    errorNotice (codes ("https://x.io")) true (codes ("File already exists.")) =
      ({ message := fileExistsMsg (codes ("https://x.io")), duration := some 10000 },
        false) :=
  (errorNotice_messages (codes ("https://x.io")) (codes ("File already exists."))
    (by decide)).1
